import Mathlib

set_option maxRecDepth 100000

/-!
Verification of the admission-controlled retry queue in
`src/utils/queryQueue.ts`.

The TypeScript core is a single shared mutable `QueryState` per wrapped
function, mutated by four cooperating continuations:

* `createPromiseExecutor` / `queryQueue` (lines 94-132): registration of a
  new call — assigns `callIndex := numberOfCalls`, stores a fresh record
  with `retries: 0`, increments `numberOfCalls`, and synchronously invokes
  `retryCallback`, which schedules a timer;
* `retryCallback` (lines 67-83): computes the backoff delay and schedules
  an attempt with `setTimeout`;
* `attemptCallbackRun` (lines 28-34): marks the index active, awaits the
  unit of work, and on success resolves the caller's promise, removes the
  active entry and decrements `numberOfCalls`;
* `handleRunErrorsAndRetries` (lines 45-57): on failure checks the retry
  cap (`currentRetryCount > MAX_RETRIES_PER_DAY`), on exhaustion deletes
  the record and the active entry and throws, otherwise increments
  `numberOfFailures` and the record's `retries` and reschedules.

We embed this as a small-step state machine.  Each `Action` is one
synchronous slice of a continuation running to completion on the single
JS thread (the event loop never interleaves inside a slice):

* `register args throws` — the caller invokes the queued function
  (always enabled: nothing in the queue ever blocks registration);
* `fire c` — the scheduled timer of call `c` fires: `attemptCallbackRun`
  marks the index active and starts the awaited unit of work;
* `completeOk c v` — the awaited unit of work of call `c` resolves with
  `v` and the success continuation runs;
* `completeErr c` — the awaited unit of work rejects and the failure
  continuation (`handleRunErrorsAndRetries`) runs.

The unit of work is asynchronous and its latency is controlled by the
environment, so the order in which `fire`/`complete*` slices run is
modelled nondeterministically: the environment picks any enabled action.
Timer delays themselves do not gate enabledness in the model; the delay
VALUE computed by `retryCallback` is embedded separately as
`scheduledDelay` and is the subject of the delay claims.

Fields of the TypeScript record that the algorithm never reads
(`timestamp`, and `func` — whose behaviour is exactly the nondeterministic
outcome choice above) are not carried; `args: any[]` is abstracted to one
opaque `Nat` so that overwriting of records is observable. `retries?` is
declared optional in the interface but every creation site writes
`retries: 0` and every read applies `|| 0`, so it is carried as a plain
`Nat`.
-/

namespace QueryQueue

/-- One entry of `queryState.calls` (lines 6-9 of `queryQueue.ts`). -/
structure CallRecord where
  args : Nat
  retries : Nat
deriving DecidableEq

/-- The shared mutable `QueryState` (lines 2-10).  `currentActiveCalls` is a
JS object used as a set of indices: we keep the list duplicate-free by
construction.  `calls` is the index-keyed record map, kept as an
association list.  `numberOfCalls` is an `Int` because the code decrements
it (line 33). -/
structure QueryState where
  numberOfCalls : Int
  numberOfFailures : Int
  currentActiveCalls : List Int
  calls : List (Int × CallRecord)
deriving DecidableEq

/-- The constant `MAX_RETRIES_PER_DAY = 300` (line 12). -/
def MAX_RETRIES_PER_DAY : Nat := 300

/-- The constant `MAX_ACTIVE_CALLS = 5` (line 13). -/
def MAX_ACTIVE_CALLS : Nat := 5

/-- The predicate `areActiveCallsFull` (lines 15-17):
`Object.keys(currentActiveCalls).length >= MAX_ACTIVE_CALLS`. -/
def areActiveCallsFull (qs : QueryState) : Bool :=
  decide (MAX_ACTIVE_CALLS ≤ qs.currentActiveCalls.length)

/-- The backoff factor computed at line 70:
`Math.pow(2, numberOfFailures > 3 ? 3 : numberOfFailures)`.
`Math.pow` on a possibly negative exponent is exact binary arithmetic, so
we compute in `ℚ` with an integer exponent. -/
def backOff (qs : QueryState) : ℚ :=
  (2 : ℚ) ^ (if qs.numberOfFailures > 3 then (3 : Int) else qs.numberOfFailures)

/-- The delay passed to `setTimeout` at line 82:
`isFull ? 100 + backOff : backOff`. -/
def scheduledDelay (qs : QueryState) : ℚ :=
  if areActiveCallsFull qs then 100 + backOff qs else backOff qs

/-- Association-list lookup for `queryState.calls[i]` (`undefined` ↦ `none`). -/
def lookupRec : List (Int × CallRecord) → Int → Option CallRecord
  | [], _ => none
  | p :: rest, i => if p.1 = i then some p.2 else lookupRec rest i

/-- Assignment `queryState.calls[i] = r` — overwrite in place, or append a
new key. -/
def setRec : List (Int × CallRecord) → Int → CallRecord → List (Int × CallRecord)
  | [], i, r => [(i, r)]
  | p :: rest, i, r => if p.1 = i then (i, r) :: rest else p :: setRec rest i r

/-- Deletion `delete queryState.calls[i]`. -/
def deleteRec : List (Int × CallRecord) → Int → List (Int × CallRecord)
  | [], _ => []
  | p :: rest, i => if p.1 = i then rest else p :: deleteRec rest i

/-- Assignment `queryState.currentActiveCalls[i] = true` — a JS object key
set is
idempotent. -/
def insertActive (l : List Int) (i : Int) : List Int :=
  if i ∈ l then l else l ++ [i]

/-- Deletion `delete queryState.currentActiveCalls[i]`. -/
def removeActive (l : List Int) (i : Int) : List Int :=
  l.filter (fun j => j ≠ i)

/-- Whether a chain's next scheduled slice is a timer firing (`waiting`,
i.e. between `setTimeout` and the attempt) or the resolution of the awaited
unit of work (`running`, i.e. inside `await func(...args)`). -/
inductive ChainPhase
  | waiting
  | running
deriving DecidableEq

/-- One live retry chain: the sequence of continuations spawned by one
invocation of the queued function.  `callId` is the invocation's identity
(the promise it must settle); `index` is the `callIndex` captured at
registration and used for all state accesses (lines 99, 108). -/
structure Chain where
  callId : Nat
  index : Int
  phase : ChainPhase
deriving DecidableEq

/-- Settlement state of the promise returned to the caller. -/
inductive PromiseStatus
  | pending
  | resolved (value : Nat)
  | rejected
deriving DecidableEq

/-- The whole observable world: the shared `QueryState`, the live chains,
the promises handed to callers, a fresh-id source for invocations, and a
count of errors that escaped a deferred continuation unobserved (a thrown
error inside the `setTimeout` callback has no listener — see lines 52 and
the `catch` at 77-81). -/
structure World where
  qs : QueryState
  chains : List Chain
  promises : List (Nat × PromiseStatus)
  nextCallId : Nat
  unhandled : Nat
deriving DecidableEq

def findChain (w : World) (c : Nat) : Option Chain :=
  w.chains.find? (fun ch => ch.callId == c)

def removeChain (chains : List Chain) (c : Nat) : List Chain :=
  chains.filter (fun ch => ch.callId ≠ c)

def setPhase (chains : List Chain) (c : Nat) (ph : ChainPhase) : List Chain :=
  chains.map (fun ch => if ch.callId = c then { ch with phase := ph } else ch)

def lookupP : List (Nat × PromiseStatus) → Nat → Option PromiseStatus
  | [], _ => none
  | p :: rest, c => if p.1 = c then some p.2 else lookupP rest c

/-- Settling the promise stored under key `c` via `resolve`/`reject` (keys are
unique: one promise per invocation). -/
def setP : List (Nat × PromiseStatus) → Nat → PromiseStatus → List (Nat × PromiseStatus)
  | [], _, _ => []
  | p :: rest, c, s => if p.1 = c then (p.1, s) :: rest else p :: setP rest c s

def findPromise (w : World) (c : Nat) : Option PromiseStatus :=
  lookupP w.promises c

/-- Registration: the body of `createPromiseExecutor` (lines 94-112) run by
`queryQueue`'s returned closure (lines 127-131).  It stores a fresh record
at `callIndex := numberOfCalls` (overwriting any record already there),
increments `numberOfCalls`, and calls `retryCallback`, whose synchronous
prefix schedules the first timer.  `throws` models a synchronous error
thrown during registration: the executor's `try { ... } catch (error) {
reject(error) }` (lines 107-111) rejects the caller's promise and no timer
is ever scheduled, so no chain is created. -/
def registerStep (w : World) (args : Nat) (throws : Bool) : World :=
  let callIndex := w.qs.numberOfCalls
  let qs1 : QueryState :=
    { w.qs with
      calls := setRec w.qs.calls callIndex ⟨args, 0⟩
      numberOfCalls := w.qs.numberOfCalls + 1 }
  if throws then
    { w with
      qs := qs1
      promises := w.promises ++ [(w.nextCallId, PromiseStatus.rejected)]
      nextCallId := w.nextCallId + 1 }
  else
    { w with
      qs := qs1
      chains := w.chains ++ [⟨w.nextCallId, callIndex, ChainPhase.waiting⟩]
      promises := w.promises ++ [(w.nextCallId, PromiseStatus.pending)]
      nextCallId := w.nextCallId + 1 }

/-- The timer scheduled by `retryCallback` fires: the prefix of
`attemptCallbackRun` (lines 28-30) runs — `currentActiveCalls[index] =
true` and the unit of work is invoked and awaited. -/
def fireStep (w : World) (c : Nat) : Option World :=
  match findChain w c with
  | none => none
  | some ch =>
    match ch.phase with
    | ChainPhase.running => none
    | ChainPhase.waiting =>
      some { w with
        qs := { w.qs with
          currentActiveCalls := insertActive w.qs.currentActiveCalls ch.index }
        chains := setPhase w.chains c ChainPhase.running }

/-- The awaited unit of work resolves: the rest of `attemptCallbackRun`
(lines 31-33) runs — `resolve(callResult)`, `delete
currentActiveCalls[index]`, `numberOfCalls--` — followed by the success
continuation of `retryCallback` (lines 74-76): if
`(calls[index].retries || 0) > 0` then `numberOfFailures--`.  If another
chain has meanwhile deleted `calls[index]`, the read
`queryState.calls[index].retries` throws a `TypeError` which escapes the
timer callback unobserved (the promise was already resolved). -/
def completeOkStep (w : World) (c : Nat) (v : Nat) : Option World :=
  match findChain w c with
  | none => none
  | some ch =>
    match ch.phase with
    | ChainPhase.waiting => none
    | ChainPhase.running =>
      let qs1 : QueryState :=
        { w.qs with
          currentActiveCalls := removeActive w.qs.currentActiveCalls ch.index
          numberOfCalls := w.qs.numberOfCalls - 1 }
      let promises1 := setP w.promises c (PromiseStatus.resolved v)
      match lookupRec qs1.calls ch.index with
      | some r =>
        some { w with
          qs := if r.retries > 0
                then { qs1 with numberOfFailures := qs1.numberOfFailures - 1 }
                else qs1
          promises := promises1
          chains := removeChain w.chains c }
      | none =>
        some { w with
          qs := qs1
          promises := promises1
          chains := removeChain w.chains c
          unhandled := w.unhandled + 1 }

/-- The awaited unit of work rejects: the `catch` at lines 77-81 calls
`handleRunErrorsAndRetries` (lines 45-57).  It reads `currentRetryCount :=
calls[index].retries || 0` (a `TypeError` escapes unobserved if the record
was deleted by a colliding chain), then:

* if `currentRetryCount > MAX_RETRIES_PER_DAY`: deletes the active entry
  and the record and throws `new Error('Max retries exceeded')` — the
  throw propagates out of the deferred `setTimeout` callback with nobody
  listening, so the caller's promise is NOT settled;
* otherwise: `numberOfFailures++`, `calls[index].retries =
  currentRetryCount + 1`, and `retryCallback` schedules the next timer. -/
def completeErrStep (w : World) (c : Nat) : Option World :=
  match findChain w c with
  | none => none
  | some ch =>
    match ch.phase with
    | ChainPhase.waiting => none
    | ChainPhase.running =>
      match lookupRec w.qs.calls ch.index with
      | none =>
        some { w with chains := removeChain w.chains c, unhandled := w.unhandled + 1 }
      | some r =>
        if r.retries > MAX_RETRIES_PER_DAY then
          some { w with
            qs := { w.qs with
              currentActiveCalls := removeActive w.qs.currentActiveCalls ch.index
              calls := deleteRec w.qs.calls ch.index }
            chains := removeChain w.chains c
            unhandled := w.unhandled + 1 }
        else
          some { w with
            qs := { w.qs with
              numberOfFailures := w.qs.numberOfFailures + 1
              calls := setRec w.qs.calls ch.index { r with retries := r.retries + 1 } }
            chains := setPhase w.chains c ChainPhase.waiting }

/-- One environment-chosen step. -/
inductive Action
  | register (args : Nat) (throws : Bool)
  | fire (c : Nat)
  | completeOk (c : Nat) (v : Nat)
  | completeErr (c : Nat)
deriving DecidableEq

def stepAction (a : Action) (w : World) : Option World :=
  match a with
  | Action.register args throws => some (registerStep w args throws)
  | Action.fire c => fireStep w c
  | Action.completeOk c v => completeOkStep w c v
  | Action.completeErr c => completeErrStep w c

def runActions : List Action → World → Option World
  | [], w => some w
  | a :: rest, w =>
    match stepAction a w with
    | some w' => runActions rest w'
    | none => none

/-- The fresh state allocated by `queryQueue` (lines 121-126): all
counters zero, no active calls, no records; and no chains or promises yet. -/
def initWorld : World :=
  ⟨⟨0, 0, [], []⟩, [], [], 0, 0⟩

/-- A world is reachable when some environment-chosen action sequence
produces it from the fresh state allocated by `queryQueue`. -/
def Reachable (w : World) : Prop :=
  ∃ acts : List Action, runActions acts initWorld = some w

/-! ### Helper lemmas about the embedded operations -/

lemma backOff_eq (qs : QueryState) :
    backOff qs = (2 : ℚ) ^ (min qs.numberOfFailures 3) := by
  unfold backOff
  rcases lt_or_le 3 qs.numberOfFailures with h | h
  · rw [if_pos h, min_eq_right h.le]
  · rw [if_neg (not_lt.mpr h), min_eq_left h]

lemma scheduledDelay_eq (qs : QueryState) :
    scheduledDelay qs
      = (2 : ℚ) ^ (min qs.numberOfFailures 3)
        + (if areActiveCallsFull qs then (100 : ℚ) else 0) := by
  unfold scheduledDelay
  rw [backOff_eq]
  cases h : areActiveCallsFull qs
  · simp [h]
  · simp [h]; ring

lemma lookupRec_setRec_self (m : List (Int × CallRecord)) (i : Int) (r : CallRecord) :
    lookupRec (setRec m i r) i = some r := by
  induction m with
  | nil => simp [setRec, lookupRec]
  | cons p rest ih =>
    by_cases h : p.1 = i
    · simp [setRec, lookupRec, h]
    · simp [setRec, lookupRec, h, ih]

lemma mem_insertActive (l : List Int) (i j : Int) (h : i ∈ l) :
    i ∈ insertActive l j := by
  unfold insertActive
  split
  · exact h
  · exact List.mem_append_left _ h

lemma mem_removeActive (l : List Int) (i j : Int) (h : i ∈ l) (hne : i ≠ j) :
    i ∈ removeActive l j := by
  unfold removeActive
  exact List.mem_filter.mpr ⟨h, by simpa using hne⟩

/-! ### C3 and C8: the backoff delay -/

/-- Claim C3: for every scheduling step the delay before the next attempt
equals `2 ^ min(failureCount, 3)` time units plus exactly `100` additional
units when at least `MAX_ACTIVE_CALLS = 5` indices are active at the moment
of scheduling, and nothing else; moreover saturation never blocks
admission: a registration step is always enabled, and the scheduled
attempt of a waiting chain is always enabled, regardless of saturation. -/
theorem c3_delay_formula :
    (∀ qs : QueryState,
        scheduledDelay qs
          = (2 : ℚ) ^ (min qs.numberOfFailures 3)
            + (if areActiveCallsFull qs then (100 : ℚ) else 0))
    ∧ (∀ (w : World) (a : Nat) (t : Bool),
        (stepAction (Action.register a t) w).isSome = true)
    ∧ (∀ (w : World) (c : Nat) (ch : Chain),
        findChain w c = some ch → ch.phase = ChainPhase.waiting →
        (stepAction (Action.fire c) w).isSome = true) := by
  refine ⟨scheduledDelay_eq, fun w a t => rfl, fun w c ch h1 h2 => ?_⟩
  simp [stepAction, fireStep, h1, h2]

/-- Witness for C3 at a concrete state: the fresh queue, and the chain
created by one registration. -/
theorem c3_delay_formula_witness :
    scheduledDelay initWorld.qs
      = (2 : ℚ) ^ (min initWorld.qs.numberOfFailures 3)
        + (if areActiveCallsFull initWorld.qs then (100 : ℚ) else 0)
    ∧ (stepAction (Action.fire 0) (registerStep initWorld 3 false)).isSome = true :=
  ⟨c3_delay_formula.1 initWorld.qs,
   c3_delay_formula.2.2 (registerStep initWorld 3 false) 0
     ⟨0, 0, ChainPhase.waiting⟩ rfl rfl⟩

/-- Claim C8: with the set of active calls held fixed, the scheduled delay
is monotonically non-decreasing in `numberOfFailures` on the non-negative
range, is constant once `numberOfFailures ≥ 3`, and is bounded above by
`8 + 100 = 108` time units in every state whatsoever (reachable or not). -/
theorem c8_delay_monotone_bounded :
    (∀ qs qs' : QueryState,
        qs.currentActiveCalls = qs'.currentActiveCalls →
        0 ≤ qs.numberOfFailures → qs.numberOfFailures ≤ qs'.numberOfFailures →
        scheduledDelay qs ≤ scheduledDelay qs')
    ∧ (∀ qs : QueryState, 3 ≤ qs.numberOfFailures →
        scheduledDelay qs = (if areActiveCallsFull qs then (100 : ℚ) else 0) + 8)
    ∧ (∀ qs : QueryState, scheduledDelay qs ≤ 108) := by
  refine ⟨?_, ?_, ?_⟩
  · intro qs qs' hact h0 hle
    rw [scheduledDelay_eq, scheduledDelay_eq]
    have hpen : areActiveCallsFull qs = areActiveCallsFull qs' := by
      unfold areActiveCallsFull; rw [hact]
    rw [hpen]
    have hpow : (2 : ℚ) ^ (min qs.numberOfFailures 3)
        ≤ (2 : ℚ) ^ (min qs'.numberOfFailures 3) :=
      zpow_le_zpow_right₀ (by norm_num) (min_le_min hle le_rfl)
    exact add_le_add_right hpow _
  · intro qs h3
    rw [scheduledDelay_eq, min_eq_right h3]
    norm_num [add_comm]
  · intro qs
    rw [scheduledDelay_eq]
    have hpow : (2 : ℚ) ^ (min qs.numberOfFailures 3) ≤ (2 : ℚ) ^ (3 : ℤ) :=
      zpow_le_zpow_right₀ (by norm_num) (min_le_right _ _)
    have hpen : (if areActiveCallsFull qs then (100 : ℚ) else 0) ≤ 100 := by
      split <;> norm_num
    calc (2 : ℚ) ^ (min qs.numberOfFailures 3)
          + (if areActiveCallsFull qs then (100 : ℚ) else 0)
        ≤ (2 : ℚ) ^ (3 : ℤ) + 100 := add_le_add hpow hpen
      _ = 108 := by norm_num

/-- Witness for C8 at concrete states. -/
theorem c8_delay_monotone_bounded_witness :
    scheduledDelay ⟨0, 1, [], []⟩ ≤ scheduledDelay ⟨0, 2, [], []⟩
    ∧ scheduledDelay ⟨0, 5, [], []⟩
        = (if areActiveCallsFull ⟨0, 5, [], []⟩ then (100 : ℚ) else 0) + 8
    ∧ scheduledDelay ⟨0, 0, [], []⟩ ≤ 108 :=
  ⟨c8_delay_monotone_bounded.1 ⟨0, 1, [], []⟩ ⟨0, 2, [], []⟩ rfl (by norm_num) (by norm_num),
   c8_delay_monotone_bounded.2.1 ⟨0, 5, [], []⟩ (by norm_num),
   c8_delay_monotone_bounded.2.2 ⟨0, 0, [], []⟩⟩

/-! ### Concrete executions

`failPairs n` is the behaviour of a single registered call whose unit of
work always fails: the timer fires, the attempt runs, the awaited unit of
work rejects — `n` times over. -/

def failPairs : Nat → List Action
  | 0 => []
  | n + 1 => Action.fire 0 :: Action.completeErr 0 :: failPairs n

/-- One call (args `7`) whose unit of work fails on every one of its first
`n` attempts. -/
def alwaysFailRun (n : Nat) : Option World :=
  runActions (Action.register 7 false :: failPairs n) initWorld

/-! ### C1: the exhaustion failure never reaches the caller -/

/-- Claim C1 (code bug): run one call whose unit of work fails on every
attempt until the retry cap fires (302 attempts).  The exhaustion path
does delete the call record and the active-call entry, but the
`throw new Error('Max retries exceeded')` at line 52 happens inside a
deferred `setTimeout` continuation that nobody awaits, so the caller's
promise is never rejected: it is still `pending` after the call record is
gone and the chain is dead (`unhandled = 1` counts the escaped throw).
The claim (and §4.3/§7 of the spec) requires the caller's future to settle
terminally; the code leaves it pending forever. -/
theorem c1_exhaustion_never_settles :
    (alwaysFailRun 302).map (fun w =>
        (findPromise w 0, lookupRec w.qs.calls 0, w.qs.currentActiveCalls,
         w.chains, w.unhandled))
      = some (some PromiseStatus.pending, none, [], [], 1) := by
  decide

/-! ### C2: the number of attempts before exhaustion -/

/-- Counterexample to claim C2: after exactly `MAX_RETRIES_PER_DAY + 1 =
301` failing attempts the call has NOT terminated — its chain is still
alive (a further timer is scheduled) and its stored `retries` counter
already reads `301 > 300`.  This refutes both "attempted exactly 301
times" and "the stored per-call retries counter never exceeds 300": the
cap test `currentRetryCount > MAX_RETRIES_PER_DAY` at line 49 reads the
counter before incrementing it. -/
theorem c2_still_running_after_301 :
    (alwaysFailRun 301).map (fun w => (lookupRec w.qs.calls 0, w.chains.length))
      = some (some ⟨7, 301⟩, 1) := by
  decide

/-- Claim C2 as amended: a call whose unit of work always fails is
attempted exactly `MAX_RETRIES_PER_DAY + 2 = 302` times — the 302-attempt
run completes, ends with the chain dead, the record deleted and the
escaped exhaustion throw recorded, and no 303rd attempt can fire. -/
theorem c2_amended_302_attempts :
    (alwaysFailRun 302).isSome = true
    ∧ (alwaysFailRun 302).map (fun w => (w.chains, lookupRec w.qs.calls 0, w.unhandled))
        = some ([], none, 1)
    ∧ Option.bind (alwaysFailRun 302) (stepAction (Action.fire 0)) = none := by
  refine ⟨by decide, by decide, by decide⟩

/-! ### C4: the dual-purpose counter and index collision -/

/-- Claim C4: every successful completion decrements `numberOfCalls` by
one while leaving the `calls` record map untouched (the completed call's
record is never deleted); consequently, in the concrete run where call 0
completes before the next invocation registers, the second invocation is
assigned the same call-index `0` and its registration overwrites the first
call's record (`args` changes from `10` to `20`). -/
theorem c4_success_decrement_and_collision :
    (∀ (w w' : World) (c v : Nat), completeOkStep w c v = some w' →
        w'.qs.numberOfCalls = w.qs.numberOfCalls - 1 ∧ w'.qs.calls = w.qs.calls)
    ∧ (runActions [Action.register 10 false, Action.fire 0, Action.completeOk 0 3]
          initWorld).map (fun w => (lookupRec w.qs.calls 0, w.qs.numberOfCalls))
        = some (some ⟨10, 0⟩, 0)
    ∧ (runActions [Action.register 10 false, Action.fire 0, Action.completeOk 0 3,
          Action.register 20 false] initWorld).map
          (fun w => (w.chains, lookupRec w.qs.calls 0))
        = some ([⟨1, 0, ChainPhase.waiting⟩], some ⟨20, 0⟩) := by
  refine ⟨?_, by decide, by decide⟩
  intro w w' c v h
  unfold completeOkStep at h
  split at h
  · exact Option.noConfusion h
  · split at h
    · exact Option.noConfusion h
    · dsimp only at h
      split at h
      · injection h with h
        subst h
        refine ⟨?_, ?_⟩ <;> split <;> rfl
      · injection h with h
        subst h
        exact ⟨rfl, rfl⟩

/-- A world with one running attempt (call 0, index 0, record `⟨10, 0⟩`)
and the world produced by its successful completion. -/
def c4w : World :=
  ⟨⟨1, 0, [0], [(0, ⟨10, 0⟩)]⟩, [⟨0, 0, ChainPhase.running⟩],
   [(0, PromiseStatus.pending)], 1, 0⟩

def c4w' : World :=
  ⟨⟨0, 0, [], [(0, ⟨10, 0⟩)]⟩, [], [(0, PromiseStatus.resolved 3)], 1, 0⟩

/-- Witness for C4's universally quantified part at a concrete success. -/
theorem c4_success_decrement_and_collision_witness :
    c4w'.qs.numberOfCalls = c4w.qs.numberOfCalls - 1 ∧ c4w'.qs.calls = c4w.qs.calls :=
  c4_success_decrement_and_collision.1 c4w c4w' 0 3 (by decide)

/-! ### C5: the failure counter -/

/-- The colliding interleaving: calls A (args 5, index 0) and B (args 6,
index 1) register; both attempts start; A succeeds, so `numberOfCalls`
drops back to 1 and call C (args 7) registers at index 1 — overwriting
B's record while B's attempt is still in flight.  B's failure then charges
the shared record, and both B's retry and C's first attempt subsequently
succeed, each seeing `retries = 1 > 0` and each decrementing
`numberOfFailures`: one failure, two decrements. -/
def collisionActions : List Action :=
  [Action.register 5 false, Action.register 6 false, Action.fire 0, Action.fire 1,
   Action.completeOk 0 42, Action.register 7 false, Action.completeErr 1,
   Action.fire 2, Action.completeOk 2 9, Action.fire 1, Action.completeOk 1 8]

/-- Counterexample to claim C5: `numberOfFailures` is NOT `≥ 0` in every
reachable state — the collision interleaving drives it to `-1`, and the
second success in it is a call (call id 2) whose own unit of work never
failed, yet it triggers a decrement because a colliding failed call wrote
`retries = 1` into the shared record. -/
theorem c5_failure_count_goes_negative :
    (runActions collisionActions initWorld).map (fun w => w.qs.numberOfFailures)
      = some (-1) := by
  decide

/-- The specification-side delta of `numberOfFailures` across one step,
written from the amended claim C5: it rises by one exactly on a failed
attempt whose stored record exists and has not exhausted the cap, falls by
one exactly on a successful completion whose stored record exists with
`retries > 0` — whichever invocation put that value there — and is
unchanged otherwise. -/
def failureDelta (a : Action) (w : World) : Int :=
  match a with
  | Action.completeOk c _ =>
    match findChain w c with
    | some ch =>
      match lookupRec w.qs.calls ch.index with
      | some r => if r.retries > 0 then -1 else 0
      | none => 0
    | none => 0
  | Action.completeErr c =>
    match findChain w c with
    | some ch =>
      match lookupRec w.qs.calls ch.index with
      | some r => if r.retries > MAX_RETRIES_PER_DAY then 0 else 1
      | none => 0
    | none => 0
  | _ => 0

/-- Claim C5 as amended: across every enabled step, `numberOfFailures`
changes exactly by `failureDelta` — incremented only on a non-exhausted
failed attempt, decremented by exactly one only on a successful completion
whose stored record carries `retries > 0`.  No `≥ 0` invariant holds, and
a decrement does not require that the succeeding invocation itself ever
failed (see the counterexample). -/
theorem c5_amended_failure_delta :
    ∀ (a : Action) (w w' : World), stepAction a w = some w' →
      w'.qs.numberOfFailures = w.qs.numberOfFailures + failureDelta a w := by
  intro a w w' h
  cases a with
  | register args t =>
    injection h with h
    subst h
    unfold registerStep
    split <;> simp [failureDelta]
  | fire c =>
    simp only [stepAction] at h
    unfold fireStep at h
    split at h
    · exact Option.noConfusion h
    · split at h
      · exact Option.noConfusion h
      · injection h with h
        subst h
        simp [failureDelta]
  | completeOk c v =>
    simp only [stepAction] at h
    unfold completeOkStep at h
    split at h
    · exact Option.noConfusion h
    · rename_i ch hc
      split at h
      · exact Option.noConfusion h
      · dsimp only at h
        split at h
        · rename_i r hr
          split at h
          · rename_i hgt
            injection h with h
            subst h
            simp only [failureDelta, hc, hr, if_pos hgt]
            omega
          · rename_i hngt
            injection h with h
            subst h
            simp only [failureDelta, hc, hr, if_neg hngt]
            omega
        · rename_i hr
          injection h with h
          subst h
          simp only [failureDelta, hc, hr]
          omega
  | completeErr c =>
    simp only [stepAction] at h
    unfold completeErrStep at h
    split at h
    · exact Option.noConfusion h
    · rename_i ch hc
      split at h
      · exact Option.noConfusion h
      · split at h
        · rename_i hr
          injection h with h
          subst h
          simp only [failureDelta, hc, hr]
          omega
        · rename_i r hr
          split at h
          · rename_i hgt
            injection h with h
            subst h
            simp only [failureDelta, hc, hr, if_pos hgt]
            omega
          · rename_i hngt
            injection h with h
            subst h
            simp only [failureDelta, hc, hr, if_neg hngt]

/-- Witness for the amended C5 at a concrete step: a registration leaves
`numberOfFailures` unchanged. -/
theorem c5_amended_failure_delta_witness :
    (registerStep initWorld 3 false).qs.numberOfFailures
      = initWorld.qs.numberOfFailures + failureDelta (Action.register 3 false) initWorld :=
  c5_amended_failure_delta (Action.register 3 false) initWorld
    (registerStep initWorld 3 false) rfl

/-! ### C7: which increments accompany a failed attempt -/

/-- Counterexample to claim C7: the retry cap is checked BEFORE the
increments (line 49 precedes lines 54-55), so the failure that triggers
exhaustion performs neither increment.  Concretely, in the always-failing
run `numberOfFailures` is `301` after 301 failed attempts, and after the
302nd — the one that triggers the exhaustion path — it is still `301`
(not `302`), and the record is deleted rather than its `retries` being
incremented. -/
theorem c7_final_failure_skips_increments :
    (alwaysFailRun 301).map (fun w => w.qs.numberOfFailures) = some 301
    ∧ (alwaysFailRun 302).map
        (fun w => (w.qs.numberOfFailures, lookupRec w.qs.calls 0))
      = some (301, none) := by
  refine ⟨by decide, by decide⟩

/-- Claim C7 as amended: on an Executor failure the stored `retryCount` is
read and the cap is checked FIRST; if the stored count is still within the
cap, `numberOfFailures` and the call's `retries` are each incremented by
one, while the failure that finds the cap already exceeded increments
neither — it deletes the record and the active entry instead. -/
theorem c7_amended_cap_checked_first :
    ∀ (w : World) (c : Nat) (w' : World) (ch : Chain) (r : CallRecord),
      findChain w c = some ch → ch.phase = ChainPhase.running →
      lookupRec w.qs.calls ch.index = some r →
      completeErrStep w c = some w' →
      (r.retries ≤ MAX_RETRIES_PER_DAY →
          w'.qs.numberOfFailures = w.qs.numberOfFailures + 1
          ∧ lookupRec w'.qs.calls ch.index = some ⟨r.args, r.retries + 1⟩)
      ∧ (MAX_RETRIES_PER_DAY < r.retries →
          w'.qs.numberOfFailures = w.qs.numberOfFailures
          ∧ w'.qs.calls = deleteRec w.qs.calls ch.index
          ∧ w'.qs.currentActiveCalls = removeActive w.qs.currentActiveCalls ch.index) := by
  intro w c w' ch r hc hph hr h
  unfold completeErrStep at h
  simp only [hc, hph, hr] at h
  constructor
  · intro hle
    rw [if_neg (not_lt.mpr hle)] at h
    injection h with h
    subst h
    exact ⟨rfl, lookupRec_setRec_self _ _ _⟩
  · intro hlt
    rw [if_pos hlt] at h
    injection h with h
    subst h
    exact ⟨rfl, rfl, rfl⟩

/-- A world with one running attempt (call 0, index 0, record `⟨7, 0⟩`)
and the world produced by its failed, non-exhausting attempt. -/
def wRun1 : World :=
  ⟨⟨1, 0, [0], [(0, ⟨7, 0⟩)]⟩, [⟨0, 0, ChainPhase.running⟩],
   [(0, PromiseStatus.pending)], 1, 0⟩

def wRun1Err : World :=
  ⟨⟨1, 1, [0], [(0, ⟨7, 1⟩)]⟩, [⟨0, 0, ChainPhase.waiting⟩],
   [(0, PromiseStatus.pending)], 1, 0⟩

/-- Witness for the amended C7 at a concrete failed attempt. -/
theorem c7_amended_cap_checked_first_witness :
    wRun1Err.qs.numberOfFailures = wRun1.qs.numberOfFailures + 1
    ∧ lookupRec wRun1Err.qs.calls 0 = some ⟨7, 1⟩ :=
  (c7_amended_cap_checked_first wRun1 0 wRun1Err ⟨0, 0, ChainPhase.running⟩ ⟨7, 0⟩
      rfl rfl rfl rfl).1 (by norm_num)

/-! ### C6: the facade and registration -/

/-- Claim C6: `queryQueue` allocates one fresh `QueryState` — all counters
zero, no active calls, no records — shared by every invocation of the
returned function (every step of the model threads this one state); each
registration stores a new record with `retries = 0` at index
`numberOfCalls` (the pre-increment value), increments `numberOfCalls` by
one, starts the scheduler for that index (a new waiting chain), and hands
the caller a new pending promise. -/
theorem c6_facade_registration :
    initWorld.qs = ⟨0, 0, [], []⟩
    ∧ (∀ (w w' : World) (args : Nat),
        stepAction (Action.register args false) w = some w' →
        lookupRec w'.qs.calls w.qs.numberOfCalls = some ⟨args, 0⟩
        ∧ w'.qs.numberOfCalls = w.qs.numberOfCalls + 1
        ∧ w'.chains
            = w.chains ++ [⟨w.nextCallId, w.qs.numberOfCalls, ChainPhase.waiting⟩]
        ∧ w'.promises = w.promises ++ [(w.nextCallId, PromiseStatus.pending)]) := by
  refine ⟨rfl, ?_⟩
  intro w w' args h
  injection h with h
  subst h
  unfold registerStep
  rw [if_neg (by simp)]
  exact ⟨lookupRec_setRec_self _ _ _, rfl, rfl, rfl⟩

/-- Witness for C6 at the fresh state. -/
theorem c6_facade_registration_witness :
    lookupRec (registerStep initWorld 4 false).qs.calls initWorld.qs.numberOfCalls
      = some ⟨4, 0⟩
    ∧ (registerStep initWorld 4 false).qs.numberOfCalls
        = initWorld.qs.numberOfCalls + 1
    ∧ (registerStep initWorld 4 false).chains
        = initWorld.chains
          ++ [⟨initWorld.nextCallId, initWorld.qs.numberOfCalls, ChainPhase.waiting⟩]
    ∧ (registerStep initWorld 4 false).promises
        = initWorld.promises ++ [(initWorld.nextCallId, PromiseStatus.pending)] :=
  c6_facade_registration.2 initWorld (registerStep initWorld 4 false) 4 rfl

/-! ### C10: failed calls stay in the active set -/

/-- Five calls register, all five attempts start, and all five fail
without exhausting the cap: every chain is back to waiting on its backoff
timer. -/
def saturationActions : List Action :=
  [Action.register 0 false, Action.register 1 false, Action.register 2 false,
   Action.register 3 false, Action.register 4 false,
   Action.fire 0, Action.fire 1, Action.fire 2, Action.fire 3, Action.fire 4,
   Action.completeErr 0, Action.completeErr 1, Action.completeErr 2,
   Action.completeErr 3, Action.completeErr 4]

/-- Claim C10: a failed, non-exhausting attempt leaves
`currentActiveCalls` exactly as it was — in particular the failed call's
index stays in it throughout the backoff wait (only `attemptCallbackRun`'s
success path at line 32 and the exhaustion path at line 50 delete the
entry); across every enabled step an index can leave the active set only
through a successful completion or a cap-exceeded failure of a running
chain with that index; and consequently saturation can hold with no
attempt executing: after five calls each fail once, `areActiveCallsFull`
is `true` while every chain is merely waiting on its backoff timer. -/
theorem c10_active_set_retention :
    (∀ (w : World) (c : Nat) (w' : World) (ch : Chain) (r : CallRecord),
        findChain w c = some ch → ch.phase = ChainPhase.running →
        lookupRec w.qs.calls ch.index = some r →
        r.retries ≤ MAX_RETRIES_PER_DAY →
        completeErrStep w c = some w' →
        w'.qs.currentActiveCalls = w.qs.currentActiveCalls)
    ∧ (∀ (a : Action) (w w' : World) (i : Int), stepAction a w = some w' →
        i ∈ w.qs.currentActiveCalls → i ∉ w'.qs.currentActiveCalls →
        ∃ (c : Nat) (ch : Chain), findChain w c = some ch ∧ ch.index = i
          ∧ ch.phase = ChainPhase.running
          ∧ ((∃ v, a = Action.completeOk c v)
             ∨ (a = Action.completeErr c
                ∧ ∃ cr : CallRecord, lookupRec w.qs.calls i = some cr
                    ∧ MAX_RETRIES_PER_DAY < cr.retries)))
    ∧ (runActions saturationActions initWorld).map
        (fun w => (areActiveCallsFull w.qs, w.chains.map Chain.phase))
      = some (true, [ChainPhase.waiting, ChainPhase.waiting, ChainPhase.waiting,
                     ChainPhase.waiting, ChainPhase.waiting]) := by
  refine ⟨?_, ?_, by decide⟩
  · intro w c w' ch r hc hph hr hle h
    unfold completeErrStep at h
    simp only [hc, hph, hr] at h
    rw [if_neg (not_lt.mpr hle)] at h
    injection h with h
    subst h
    rfl
  · intro a w w' i h hi hni
    cases a with
    | register args t =>
      injection h with h
      subst h
      exfalso
      apply hni
      unfold registerStep
      split <;> exact hi
    | fire c =>
      simp only [stepAction] at h
      unfold fireStep at h
      split at h
      · exact Option.noConfusion h
      · split at h
        · exact Option.noConfusion h
        · injection h with h
          subst h
          exact absurd (mem_insertActive _ _ _ hi) hni
    | completeOk c v =>
      simp only [stepAction] at h
      unfold completeOkStep at h
      split at h
      · exact Option.noConfusion h
      · rename_i ch hc
        split at h
        · exact Option.noConfusion h
        · rename_i hph
          have hact : w'.qs.currentActiveCalls
              = removeActive w.qs.currentActiveCalls ch.index := by
            dsimp only at h
            split at h <;>
              (injection h with h; subst h; first | rfl | (split <;> rfl))
          rcases eq_or_ne i ch.index with he | hne
          · subst he
            exact ⟨c, ch, hc, rfl, hph, Or.inl ⟨v, rfl⟩⟩
          · exfalso
            rw [hact] at hni
            exact hni (mem_removeActive _ _ _ hi hne)
    | completeErr c =>
      simp only [stepAction] at h
      unfold completeErrStep at h
      split at h
      · exact Option.noConfusion h
      · rename_i ch hc
        split at h
        · exact Option.noConfusion h
        · rename_i hph
          split at h
          · injection h with h
            subst h
            exact absurd hi hni
          · rename_i r hr
            split at h
            · rename_i hgt
              injection h with h
              subst h
              rcases eq_or_ne i ch.index with he | hne
              · subst he
                exact ⟨c, ch, hc, rfl, hph, Or.inr ⟨rfl, r, hr, hgt⟩⟩
              · exact absurd (mem_removeActive _ _ _ hi hne) hni
            · injection h with h
              subst h
              exact absurd hi hni

/-- A running attempt about to fail without exhausting the cap, used to
witness C10's first part. -/
def wRun2 : World :=
  ⟨⟨2, 0, [0, 1], [(0, ⟨7, 0⟩), (1, ⟨8, 2⟩)]⟩,
   [⟨0, 0, ChainPhase.waiting⟩, ⟨1, 1, ChainPhase.running⟩],
   [(0, PromiseStatus.pending), (1, PromiseStatus.pending)], 2, 0⟩

def wRun2Err : World :=
  ⟨⟨2, 1, [0, 1], [(0, ⟨7, 0⟩), (1, ⟨8, 3⟩)]⟩,
   [⟨0, 0, ChainPhase.waiting⟩, ⟨1, 1, ChainPhase.waiting⟩],
   [(0, PromiseStatus.pending), (1, PromiseStatus.pending)], 2, 0⟩

/-- Witness for C10's universally quantified part at a concrete failed
attempt. -/
theorem c10_active_set_retention_witness :
    wRun2Err.qs.currentActiveCalls = wRun2.qs.currentActiveCalls :=
  c10_active_set_retention.1 wRun2 1 wRun2Err ⟨1, 1, ChainPhase.running⟩ ⟨8, 2⟩
    rfl rfl rfl (by decide) (by decide)

/-! ### C9: synchronous registration errors -/

/-- The call ids of the live chains. -/
def chainIds (w : World) : List Nat := w.chains.map Chain.callId

lemma lookupP_append_left (ps qs : List (Nat × PromiseStatus)) (c : Nat)
    (s : PromiseStatus) (h : lookupP ps c = some s) :
    lookupP (ps ++ qs) c = some s := by
  induction ps with
  | nil => exact absurd h (by simp [lookupP])
  | cons p rest ih =>
    by_cases hp : p.1 = c
    · simpa [lookupP, hp] using h
    · simp only [lookupP, if_neg hp, List.cons_append] at h ⊢
      exact ih h

lemma lookupP_append_missing (ps : List (Nat × PromiseStatus)) (n : Nat)
    (s : PromiseStatus) (h : lookupP ps n = none) :
    lookupP (ps ++ [(n, s)]) n = some s := by
  induction ps with
  | nil => simp [lookupP]
  | cons p rest ih =>
    simp only [lookupP, List.cons_append] at h ⊢
    by_cases hp : p.1 = n
    · rw [if_pos hp] at h
      exact Option.noConfusion h
    · rw [if_neg hp] at h ⊢
      exact ih h

lemma lookupP_setP_ne (ps : List (Nat × PromiseStatus)) (c d : Nat)
    (s : PromiseStatus) (h : c ≠ d) : lookupP (setP ps d s) c = lookupP ps c := by
  induction ps with
  | nil => rfl
  | cons p rest ih =>
    by_cases hp : p.1 = d
    · simp only [setP, if_pos hp, lookupP]
      by_cases hc : p.1 = c
      · exact absurd (hc.symm.trans hp) h
      · rw [if_neg hc, if_neg hc]
    · simp only [setP, if_neg hp, lookupP]
      by_cases hc : p.1 = c
      · rw [if_pos hc, if_pos hc]
      · rw [if_neg hc, if_neg hc]
        exact ih

lemma lookupP_keys_lt_none (ps : List (Nat × PromiseStatus)) (n : Nat)
    (h : ∀ k ∈ ps.map Prod.fst, k < n) : lookupP ps n = none := by
  induction ps with
  | nil => rfl
  | cons p rest ih =>
    have hp : p.1 ≠ n := Nat.ne_of_lt (h p.1 (by simp))
    simp only [lookupP, if_neg hp]
    exact ih (fun k hk => h k (by simp [hk]))

lemma keys_setP (ps : List (Nat × PromiseStatus)) (d : Nat) (s : PromiseStatus) :
    (setP ps d s).map Prod.fst = ps.map Prod.fst := by
  induction ps with
  | nil => rfl
  | cons p rest ih =>
    by_cases hp : p.1 = d
    · simp [setP, hp]
    · simp [setP, hp, ih]

lemma chainIds_setPhase (chs : List Chain) (c : Nat) (ph : ChainPhase) :
    (setPhase chs c ph).map Chain.callId = chs.map Chain.callId := by
  unfold setPhase
  rw [List.map_map]
  refine List.map_congr_left (fun ch _ => ?_)
  by_cases h : ch.callId = c
  · simp [h]
  · simp [h]

lemma chainIds_removeChain (chs : List Chain) (c id : Nat)
    (h : id ∈ (removeChain chs c).map Chain.callId) : id ∈ chs.map Chain.callId := by
  rcases List.mem_map.mp h with ⟨ch, hmem, rfl⟩
  exact List.mem_map.mpr ⟨ch, List.mem_of_mem_filter hmem, rfl⟩

lemma findChain_callId_mem (w : World) (c : Nat) (ch : Chain)
    (h : findChain w c = some ch) : c ∈ chainIds w := by
  have hmem : ch ∈ w.chains := List.mem_of_find?_eq_some h
  have hid : ch.callId = c := by
    have := List.find?_some h
    simpa using this
  exact hid ▸ List.mem_map.mpr ⟨ch, hmem, rfl⟩

/-- Structural well-formedness of a world: every promise key and every
live chain id was drawn from the fresh-id source.  This holds in every
reachable world and pins down where `lookupP`/`findChain` can hit. -/
def WFBound (w : World) : Prop :=
  (∀ k ∈ w.promises.map Prod.fst, k < w.nextCallId)
  ∧ (∀ id ∈ chainIds w, id < w.nextCallId)

lemma wfBound_step (a : Action) (w w' : World) (h : stepAction a w = some w')
    (hw : WFBound w) : WFBound w' := by
  cases a with
  | register args t =>
    injection h with h
    subst h
    unfold registerStep
    split
    · refine ⟨?_, ?_⟩
      · intro k hk
        simp only [List.map_append, List.mem_append] at hk
        rcases hk with hk | hk
        · exact Nat.lt_succ_of_lt (hw.1 k hk)
        · simp at hk
          simp [hk]
      · intro id hid
        exact Nat.lt_succ_of_lt (hw.2 id hid)
    · refine ⟨?_, ?_⟩
      · intro k hk
        simp only [List.map_append, List.mem_append] at hk
        rcases hk with hk | hk
        · exact Nat.lt_succ_of_lt (hw.1 k hk)
        · simp at hk
          simp [hk]
      · intro id hid
        simp only [chainIds, List.map_append, List.mem_append] at hid
        rcases hid with hid | hid
        · exact Nat.lt_succ_of_lt (hw.2 id hid)
        · simp at hid
          simp [hid]
  | fire c =>
    simp only [stepAction] at h
    unfold fireStep at h
    split at h
    · exact Option.noConfusion h
    · split at h
      · exact Option.noConfusion h
      · injection h with h
        subst h
        refine ⟨hw.1, ?_⟩
        intro id hid
        simp only [chainIds, chainIds_setPhase] at hid
        exact hw.2 id hid
  | completeOk c v =>
    simp only [stepAction] at h
    unfold completeOkStep at h
    split at h
    · exact Option.noConfusion h
    · split at h
      · exact Option.noConfusion h
      · dsimp only at h
        split at h <;>
          (injection h with h; subst h;
           refine ⟨?_, ?_⟩
           · intro k hk
             simp only [keys_setP] at hk
             exact hw.1 k hk
           · intro id hid
             exact hw.2 id (chainIds_removeChain _ _ _ hid))
  | completeErr c =>
    simp only [stepAction] at h
    unfold completeErrStep at h
    split at h
    · exact Option.noConfusion h
    · split at h
      · exact Option.noConfusion h
      · split at h
        · injection h with h
          subst h
          exact ⟨hw.1, fun id hid => hw.2 id (chainIds_removeChain _ _ _ hid)⟩
        · split at h
          · injection h with h
            subst h
            exact ⟨hw.1, fun id hid => hw.2 id (chainIds_removeChain _ _ _ hid)⟩
          · injection h with h
            subst h
            refine ⟨hw.1, ?_⟩
            intro id hid
            simp only [chainIds, chainIds_setPhase] at hid
            exact hw.2 id hid

lemma wfBound_run (acts : List Action) (w w' : World)
    (h : runActions acts w = some w') (hw : WFBound w) : WFBound w' := by
  induction acts generalizing w with
  | nil =>
    injection h with h
    subst h
    exact hw
  | cons a rest ih =>
    unfold runActions at h
    cases hs : stepAction a w with
    | none => rw [hs] at h; exact Option.noConfusion h
    | some w1 =>
      rw [hs] at h
      exact ih w1 h (wfBound_step a w w1 hs hw)

lemma wfBound_reachable (w : World) (h : Reachable w) : WFBound w := by
  rcases h with ⟨acts, hrun⟩
  exact wfBound_run acts initWorld w hrun ⟨by simp [initWorld], by simp [initWorld, chainIds]⟩

/-- A call id whose promise is already rejected, with no live chain and
drawn from the used id range: this configuration persists forever. -/
def RejectedDead (c : Nat) (w : World) : Prop :=
  findPromise w c = some PromiseStatus.rejected ∧ c ∉ chainIds w ∧ c < w.nextCallId

lemma rejectedDead_step (a : Action) (w w' : World) (c : Nat)
    (h : stepAction a w = some w') (hP : RejectedDead c w) : RejectedDead c w' := by
  obtain ⟨hfp, hnc, hlt⟩ := hP
  cases a with
  | register args t =>
    injection h with h
    subst h
    unfold registerStep
    split
    · refine ⟨lookupP_append_left _ _ _ _ hfp, hnc, Nat.lt_succ_of_lt hlt⟩
    · refine ⟨lookupP_append_left _ _ _ _ hfp, ?_, Nat.lt_succ_of_lt hlt⟩
      intro hmem
      simp only [chainIds, List.map_append, List.mem_append] at hmem
      rcases hmem with hmem | hmem
      · exact hnc hmem
      · simp at hmem
        exact Nat.ne_of_lt hlt hmem
  | fire c' =>
    simp only [stepAction] at h
    unfold fireStep at h
    split at h
    · exact Option.noConfusion h
    · split at h
      · exact Option.noConfusion h
      · injection h with h
        subst h
        refine ⟨hfp, ?_, hlt⟩
        simpa only [chainIds, chainIds_setPhase] using hnc
  | completeOk c' v =>
    simp only [stepAction] at h
    unfold completeOkStep at h
    split at h
    · exact Option.noConfusion h
    · rename_i ch hc
      have hne : c ≠ c' := fun he => hnc (he ▸ findChain_callId_mem w c' ch hc)
      split at h
      · exact Option.noConfusion h
      · dsimp only at h
        split at h <;>
          (injection h with h; subst h;
           exact ⟨(lookupP_setP_ne _ _ _ _ hne).trans hfp,
                  fun hmem => hnc (chainIds_removeChain _ _ _ hmem), hlt⟩)
  | completeErr c' =>
    simp only [stepAction] at h
    unfold completeErrStep at h
    split at h
    · exact Option.noConfusion h
    · split at h
      · exact Option.noConfusion h
      · split at h
        · injection h with h
          subst h
          exact ⟨hfp, fun hmem => hnc (chainIds_removeChain _ _ _ hmem), hlt⟩
        · split at h
          · injection h with h
            subst h
            exact ⟨hfp, fun hmem => hnc (chainIds_removeChain _ _ _ hmem), hlt⟩
          · injection h with h
            subst h
            refine ⟨hfp, ?_, hlt⟩
            simpa only [chainIds, chainIds_setPhase] using hnc

lemma rejectedDead_run (acts : List Action) (w w' : World) (c : Nat)
    (h : runActions acts w = some w') (hP : RejectedDead c w) : RejectedDead c w' := by
  induction acts generalizing w with
  | nil =>
    injection h with h
    subst h
    exact hP
  | cons a rest ih =>
    unfold runActions at h
    cases hs : stepAction a w with
    | none => rw [hs] at h; exact Option.noConfusion h
    | some w1 =>
      rw [hs] at h
      exact ih w1 h (rejectedDead_step a w w1 c hs hP)

/-- Claim C9: if a synchronous error is thrown while registering a call in
a reachable world, the promise handed to the caller is rejected
immediately with it, and the call is never retried — no chain for that
call id ever exists, under every subsequent action sequence, so no attempt
of it is ever scheduled or run. -/
theorem c9_sync_error_rejects_immediately :
    ∀ (w : World) (args : Nat) (w' : World), Reachable w →
      stepAction (Action.register args true) w = some w' →
      findPromise w' w.nextCallId = some PromiseStatus.rejected
      ∧ w.nextCallId ∉ chainIds w'
      ∧ ∀ (acts : List Action) (w'' : World), runActions acts w' = some w'' →
          findPromise w'' w.nextCallId = some PromiseStatus.rejected
          ∧ w.nextCallId ∉ chainIds w'' := by
  intro w args w' hreach h
  have hw := wfBound_reachable w hreach
  injection h with h
  subst h
  have h1 : findPromise (registerStep w args true) w.nextCallId
      = some PromiseStatus.rejected := by
    show lookupP (w.promises ++ [(w.nextCallId, PromiseStatus.rejected)])
        w.nextCallId = some PromiseStatus.rejected
    exact lookupP_append_missing _ _ _ (lookupP_keys_lt_none _ _ hw.1)
  have h2 : w.nextCallId ∉ chainIds (registerStep w args true) := by
    show w.nextCallId ∉ chainIds w
    intro hmem
    exact Nat.lt_irrefl _ (hw.2 _ hmem)
  have hRD : RejectedDead w.nextCallId (registerStep w args true) :=
    ⟨h1, h2, Nat.lt_succ_self _⟩
  refine ⟨h1, h2, fun acts w'' hrun => ?_⟩
  have hEnd := rejectedDead_run acts _ w'' _ hrun hRD
  exact ⟨hEnd.1, hEnd.2.1⟩

/-- Witness for C9: a registration that throws on the fresh queue. -/
theorem c9_sync_error_rejects_immediately_witness :
    findPromise (registerStep initWorld 3 true) initWorld.nextCallId
      = some PromiseStatus.rejected
    ∧ initWorld.nextCallId ∉ chainIds (registerStep initWorld 3 true) :=
  ⟨(c9_sync_error_rejects_immediately initWorld 3 (registerStep initWorld 3 true)
      ⟨[], rfl⟩ rfl).1,
   (c9_sync_error_rejects_immediately initWorld 3 (registerStep initWorld 3 true)
      ⟨[], rfl⟩ rfl).2.1⟩

end QueryQueue
